import Mathlib

/-!
Verification of the thriftybackup change-tree engine and backup state
machine against its specification.

The definitions below are a shallow embedding of the Python sources:
  * `src/thriftybackup/filesystem.py` — the change tree (`Entry`, `File`,
    `Link`, `Directory`, `Root`): `transfer_size`, `large_entries`,
    `iter_files`, `add_file`/`_add_file`, `get`/`_get`.
  * `src/thriftybackup/backup.py` — `scout_log_to_tree`, the
    `RcloneMixin.rclone` retry loop, `RCLONE_EXIT_CODES`,
    `BackupTask.get_user_feedback`, `BackupTask.perform`,
    `BackupConfig.backup`.

Conventions of the embedding:
  * Paths are lists of path components (`List String`).  `pathParts`
    models `pathlib.Path(...).parts` for the relative paths produced by
    rclone, `splitSlash` models Python's `str.split('/')`.
  * Python exceptions become an explicit `PyError` value threaded through
    `Except`.  `RuntimeError(f"{path} has already been added")` is
    `.runtimeDuplicate path`; an `AttributeError` from calling a missing
    method on a `File` is `.attributeError`; a dictionary `KeyError` is
    `.keyError name`; unpacking an empty tuple is `.valueError`.
  * Python dictionaries (which preserve insertion order) become
    association lists; `dict.setdefault` and item assignment become
    `updateName` / `assocSet`, which update in place or append.
  * `exclude` membership in `iter_files` is object identity in Python; in
    a tree built by the parser every node carries its own distinct full
    path, so the embedding compares stored paths.
-/

namespace TB

/-- The change-tree node. `Entry`/`File`/`Link`/`Directory` of
`filesystem.py` collapse into one closed inductive: `.file` with
`link := true` is a `Link`, with `link := false` a `File`; `.dir` is a
`Directory` (which in Python carries `size = None`, so no size field
here).  `action = none` is Python `action=None`; `metadata` is the open
keyword-argument dictionary. -/
inductive Entry where
  | file (path : List String) (size : Nat) (action : Option String)
         (metadata : List (String × String)) (link : Bool)
  | dir  (path : List String) (action : Option String)
         (metadata : List (String × String)) (entries : List (String × Entry))

/-- The `action` attribute of a node. -/
def entryAction : Entry → Option String
  | .file _ _ a _ _ => a
  | .dir _ a _ _ => a

/-- The `metadata` dictionary of a node. -/
def entryMeta : Entry → List (String × String)
  | .file _ _ _ md _ => md
  | .dir _ _ md _ => md

/-- The `path` attribute of a node. -/
def entryPath : Entry → List String
  | .file p _ _ _ _ => p
  | .dir p _ _ _ => p

/-- Python truthiness of an `action` value: `None` and `''` are falsy,
any other string is truthy (`if existing_entry.action:` and
`if self.action:` in `filesystem.py`). -/
def actionTruthy : Option String → Bool
  | none => false
  | some s => s != ""

/-- `existing_entry.action = action` (filesystem.py line 79). -/
def entrySetAction (e : Entry) (act : String) : Entry :=
  match e with
  | .file p s _ md l => .file p s (some act) md l
  | .dir p _ md es => .dir p (some act) md es

/-- Dictionary item assignment `d[k] = v` on an insertion-ordered
association list: overwrite the existing binding in place, else append. -/
def assocSet : List (String × String) → String → String → List (String × String)
  | [], k, v => [(k, v)]
  | (k', v') :: rest, k, v =>
      if k' = k then (k, v) :: rest else (k', v') :: assocSet rest k v

/-- Dictionary lookup `d.get(k)` on an association list. -/
def assocGet : List (String × String) → String → Option String
  | [], _ => none
  | (k', v') :: rest, k => if k' = k then some v' else assocGet rest k

/-- `entry.metadata[k] = v` (backup.py line 438). -/
def entrySetMeta (e : Entry) (k v : String) : Entry :=
  match e with
  | .file p s a md l => .file p s a (assocSet md k v) l
  | .dir p a md es => .dir p a (assocSet md k v) es

/-- `self.entries.get(name)` on a directory's child dictionary. -/
def lookupName : List (String × Entry) → String → Option Entry
  | [], _ => none
  | (k, e) :: rest, n => if k = n then some e else lookupName rest n

/-- Replace the binding of `n` (dictionaries preserve insertion order) or
append it — the functional counterpart of `setdefault` followed by
mutation of the returned child, and of plain item assignment. -/
def updateName : List (String × Entry) → String → Entry → List (String × Entry)
  | [], n, v => [(n, v)]
  | (k, e) :: rest, n, v =>
      if k = n then (n, v) :: rest else (k, e) :: updateName rest n v

mutual

/-- `transfer_size`: for a leaf, `self.size if self.action == 'copy'
else 0` (filesystem.py lines 29–31, inherited by `Link`); for a
directory, the sum over its children (lines 84–86; the `cached_property`
memoisation has no observable effect on a tree that is completed before
it is read). -/
def transferSize : Entry → Nat
  | .file _ sz a _ _ => if a = some "copy" then sz else 0
  | .dir _ _ _ es => transferSizeList es

/-- Sum of `transfer_size` over a child list (filesystem.py line 86). -/
def transferSizeList : List (String × Entry) → Nat
  | [] => 0
  | (_, e) :: rest => transferSize e + transferSizeList rest

end

mutual

/-- `large_entries(threshold)`: a leaf yields itself iff its transfer
size strictly exceeds the threshold (filesystem.py lines 20–22); a
directory first chains its children's `large_entries` and yields that
sequence if non-empty, otherwise falls back to the leaf rule on itself
(lines 88–95). -/
def largeEntries (threshold : Nat) : Entry → List Entry
  | .file p sz a md l =>
      if transferSize (.file p sz a md l) > threshold
      then [.file p sz a md l] else []
  | .dir p a md es =>
      match largeEntriesList threshold es with
      | [] =>
        if transferSize (.dir p a md es) > threshold
        then [.dir p a md es] else []
      | x :: xs => x :: xs

/-- `chain(*(entry.large_entries(threshold) for entry in
self.entries.values()))` (filesystem.py lines 89–90). -/
def largeEntriesList (threshold : Nat) : List (String × Entry) → List Entry
  | [] => []
  | (_, e) :: rest => largeEntries threshold e ++ largeEntriesList threshold rest

end

mutual

/-- `iter_files(exclude)`: an excluded node yields nothing; a leaf yields
itself (filesystem.py lines 33–35); a directory yields itself only when
its own action is truthy, then recurses into its children (lines
97–102).  Exclusion is by stored path (see the header note on object
identity). -/
def iterFiles (exclude : List (List String)) : Entry → List Entry
  | .file p sz a md l =>
      if p ∈ exclude then [] else [.file p sz a md l]
  | .dir p a md es =>
      if p ∈ exclude then []
      else (if actionTruthy a then [.dir p a md es] else [])
             ++ iterFilesList exclude es

/-- Recursion of `iter_files` over a child list (filesystem.py 101–102). -/
def iterFilesList (exclude : List (List String)) : List (String × Entry) → List Entry
  | [] => []
  | (_, e) :: rest => iterFiles exclude e ++ iterFilesList exclude rest

end

/-- Python-level errors raised by the tree operations. -/
inductive PyError where
  | runtimeDuplicate (path : List String)
  | attributeError
  | keyError (name : String)
  | valueError
deriving DecidableEq

/-- `_add_file(path, path_parts, size, action, link, **metadata)`
(filesystem.py lines 69–82).  `parts` is the remaining components,
`done` the components already consumed (so the original path is
`done ++ parts`).  A recursive call on a `File` child models the
`AttributeError` Python raises because `File` has no `_add_file`;
destructuring an empty component tuple models the `ValueError`. -/
def addFileRec : List String → List String → Nat → String → Bool →
    List (String × String) → Entry → Except PyError Entry
  | _, _, _, _, _, _, .file _ _ _ _ _ => .error .attributeError
  | [], _, _, _, _, _, .dir _ _ _ _ => .error .valueError
  | n :: rest, done, sz, act, lk, md, .dir p a m es =>
    match rest with
    | [] =>
      match lookupName es n with
      | some e =>
          if actionTruthy (entryAction e)
          then .error (.runtimeDuplicate (done ++ [n]))
          else .ok (.dir p a m (updateName es n (entrySetAction e act)))
      | none =>
          .ok (.dir p a m (es ++ [(n, .file (done ++ [n]) sz (some act) md lk)]))
    | _ :: _ =>
      let child := (lookupName es n).getD (.dir (done ++ [n]) none [] [])
      match addFileRec rest (done ++ [n]) sz act lk md child with
      | .ok c' => .ok (.dir p a m (updateName es n c'))
      | .error e => .error e

/-- Model of Python `str.split('/')` (used by `Directory.get`). -/
def splitSlashAux : List Char → List Char → List (List Char)
  | [], acc => [acc.reverse]
  | c :: rest, acc =>
      if c = '/' then acc.reverse :: splitSlashAux rest []
      else splitSlashAux rest (c :: acc)

/-- `path.split('/')` as a list of components (keeps empty components). -/
def splitSlash (s : String) : List String :=
  (splitSlashAux s.toList []).map String.mk

/-- Model of `pathlib.Path(path).parts` for the relative slash-separated
paths rclone reports: like `split('/')` but duplicate and trailing
separators collapse (empty components are dropped). -/
def pathParts (s : String) : List String :=
  (splitSlash s).filter (fun c => c ≠ "")

/-- `needle in hay` on strings, via character lists. -/
def charsContain (needle : List Char) : List Char → Bool
  | [] => needle.isEmpty
  | c :: rest => needle.isPrefixOf (c :: rest) || charsContain needle rest

/-- Python substring containment `needle in hay`. -/
def strContains (needle hay : String) : Bool :=
  charsContain needle.toList hay.toList

/-- Python `s.endswith(suffix)`. -/
def endsWithStr (sfx s : String) : Bool :=
  List.isSuffixOf sfx.toList s.toList

/-- `add_file(path, size, action, **metadata)` (filesystem.py lines
63–67): split the path, detect the `.rclonelink` suffix on the final
component, and delegate to `_add_file`. -/
def addFile (t : Entry) (path : String) (sz : Nat) (act : String)
    (md : List (String × String)) : Except PyError Entry :=
  let parts := pathParts path
  let lk := endsWithStr ".rclonelink" ((parts.getLast?).getD "")
  addFileRec parts [] sz act lk md t

/-- `get(path)` / `_get(parts)` (filesystem.py lines 56–61): exact
traversal; a missing key raises `KeyError`, descending through a `File`
raises `AttributeError` (`File` has no `_get`). -/
def getRec : List String → Entry → Except PyError Entry
  | _, .file _ _ _ _ _ => .error .attributeError
  | [], .dir _ _ _ _ => .error .valueError
  | n :: rest, .dir _ _ _ es =>
    match rest with
    | [] =>
      match lookupName es n with
      | some e => .ok e
      | none => .error (.keyError n)
    | _ :: _ =>
      match lookupName es n with
      | some e => getRec rest e
      | none => .error (.keyError n)

/-- `tree.get(path)` on the root (splits on `'/'`). -/
def getPath (t : Entry) (path : String) : Except PyError Entry :=
  getRec (splitSlash path) t

/-- `tree.get(source).metadata[k] = v` as a tree rebuild: traverse like
`_get` and update the metadata of the node found. -/
def setMetaAt : List String → String → String → Entry → Except PyError Entry
  | _, _, _, .file _ _ _ _ _ => .error .attributeError
  | [], _, _, .dir _ _ _ _ => .error .valueError
  | n :: rest, k, v, .dir p a m es =>
    match rest with
    | [] =>
      match lookupName es n with
      | some e => .ok (.dir p a m (updateName es n (entrySetMeta e k v)))
      | none => .error (.keyError n)
    | _ :: _ =>
      match lookupName es n with
      | some c =>
        match setMetaAt rest k v c with
        | .ok c' => .ok (.dir p a m (updateName es n c'))
        | .error e => .error e
      | none => .error (.keyError n)

/-- Pure traversal helper used only to state theorems: the node reached
by following `parts` through child dictionaries (no error taxonomy). -/
def resolve : Entry → List String → Option Entry
  | t, [] => some t
  | .dir _ _ _ es, n :: rest =>
    match lookupName es n with
    | some c => resolve c rest
    | none => none
  | .file _ _ _ _ _, _ :: _ => none

/-- The empty root tree (`Root('')`, whose stored path is empty). -/
def root0 : Entry := .dir [] none [] []

/-! ## Scout event-stream parser (`scout_log_to_tree`, backup.py 423–439) -/

/-- The fields of one structured (JSON) rclone log record that
`scout_log_to_tree` reads: `msg['object']`, `msg['size']`, `msg['msg']`
and `msg.get('skipped')`. -/
structure LogMsg where
  object : String
  size : Nat
  msg : String
  skipped : Option String
deriving DecidableEq

/-- One line of the log stream: either not JSON-parseable (`try_json`
returns `None`) or a parsed record. -/
inductive LogLine where
  | raw (s : String)
  | json (m : LogMsg)
deriving DecidableEq

/-- `RE_RENAMED_FROM.fullmatch(msg)` for the pattern
`Renamed from "(.*)"` (backup.py line 420): the whole message must be
the quoted announcement; the greedy group takes everything up to the
final quote and cannot span a newline. -/
def renamedFrom (s : String) : Option String :=
  let pre := "Renamed from \"".toList
  let l := s.toList
  if pre.isPrefixOf l then
    match (l.drop pre.length).reverse with
    | '"' :: revMid =>
        if revMid.contains '\n' then none
        else some (String.mk revMid.reverse)
    | _ => none
  else none

/-- The loop body of `scout_log_to_tree` (backup.py 425–438) folded
over the input lines.  A non-JSON line is printed and skipped; a truthy
`skipped` record is inserted with that skip reason as action, except
that `remove directory` breaks out of the loop (the tree so far is
returned); a rename announcement inserts a size-0 `move-dest` entry at
the new path and then annotates the entry at the old path — the
`tree.get(source)` there raises `KeyError` when the old path is absent,
which propagates out of the parse. -/
def scoutFold : Entry → List LogLine → Except PyError Entry
  | t, [] => .ok t
  | t, .raw _ :: rest => scoutFold t rest
  | t, .json m :: rest =>
    if actionTruthy m.skipped then
      if m.skipped = some "remove directory" then .ok t
      else
        match addFile t m.object m.size (m.skipped.getD "") [] with
        | .ok t' => scoutFold t' rest
        | .error e => .error e
    else
      match renamedFrom m.msg with
      | some src =>
        match addFile t m.object 0 "move-dest" [("source", src)] with
        | .ok t' =>
          match setMetaAt (splitSlash src) "destination" m.object t' with
          | .ok t2 => scoutFold t2 rest
          | .error e => .error e
        | .error e => .error e
      | none => scoutFold t rest

/-- `scout_log_to_tree(root_path, lines)` starting from a fresh root. -/
def scoutLogToTree (lines : List LogLine) : Except PyError Entry :=
  scoutFold root0 lines

/-! ## Retrying rclone wrapper (`RcloneMixin.rclone`, backup.py 64–97) -/

/-- One stderr line of a failed invocation: non-JSON (printed and
skipped) or a JSON record whose `msg` field is inspected. -/
inductive StderrLine where
  | raw (s : String)
  | json (msg : String)
deriving DecidableEq

/-- The transient-network test applied to a JSON log message
(backup.py 91–92): `"no such host" in msg or "network is unreachable"
in msg`. -/
def transientMsg (m : String) : Bool :=
  strContains "no such host" m || strContains "network is unreachable" m

/-- The outcome of one attempted invocation of the external tool:
`ok = true` is a zero exit; otherwise `code` is the non-zero exit status
of the `CalledProcessError` and `stderr` its captured error stream. -/
structure Attempt where
  ok : Bool
  code : Nat
  stderr : List StderrLine
deriving DecidableEq

/-- What the `for line in cpe.stderr.splitlines()` loop decides
(backup.py 86–97): the first JSON line settles it — transient pattern
means sleep 5 seconds and retry (`break`), anything else raises
`NotImplementedError(log_entry)`; if no JSON line is found the loop
falls through and the `while True` retries without sleeping. -/
inductive StderrClass where
  | retrySleep
  | retryNoSleep
  | fatalRaise (m : String)
deriving DecidableEq

/-- Classify a failed invocation's stderr per the loop above. -/
def classifyStderr : List StderrLine → StderrClass
  | [] => .retryNoSleep
  | .raw _ :: rest => classifyStderr rest
  | .json m :: _ =>
      if transientMsg m then .retrySleep else .fatalRaise m

/-- Observable events of the retry loop. -/
inductive REvent where
  | invoke
  | sleep5
deriving DecidableEq

/-- What the caller of `rclone` observes in the end. -/
inductive ROutcome where
  | success
  | fatalNotImplemented (entry : String)
  | scriptExhausted
deriving DecidableEq

/-- The `while True` retry loop of `rclone`, driven by a finite script
of attempt outcomes (the loop itself never gives up: a script that runs
out is reported as `scriptExhausted`).  Returns the event trace
(invocations and backoff sleeps, in order) and the surfaced outcome. -/
def rcloneTrace : List Attempt → List REvent × ROutcome
  | [] => ([], .scriptExhausted)
  | a :: rest =>
    if a.ok then ([.invoke], .success)
    else
      match classifyStderr a.stderr with
      | .fatalRaise m => ([.invoke], .fatalNotImplemented m)
      | .retrySleep =>
          let (tr, o) := rcloneTrace rest
          (.invoke :: .sleep5 :: tr, o)
      | .retryNoSleep =>
          let (tr, o) := rcloneTrace rest
          (.invoke :: tr, o)

/-- `RCLONE_EXIT_CODES` (backup.py 474–484), as a lookup from exit
status to its documented meaning. -/
def RCLONE_EXIT_CODES : Nat → Option String
  | 1 => some "Syntax or usage error"
  | 2 => some "Error not otherwise categorised"
  | 3 => some "Directory not found"
  | 4 => some "File not found"
  | 5 => some "Temporary error (one that more retries might fix) (Retry errors)"
  | 6 => some "Less serious errors (like 461 errors from dropbox) (NoRetry errors)"
  | 7 => some "Fatal error (one that more retries won't fix, like account suspended) (Fatal errors)"
  | 8 => some "Transfer exceeded - limit set by --max-transfer reached"
  | 9 => some "Operation successful, but no files transferred"
  | _ => none

/-- What a caller would observe if the spec's description of the wrapper
were implemented. -/
inductive SpecROutcome where
  | success
  | fatalMapped (code : Nat) (meaning : Option String)
  | scriptExhausted
deriving DecidableEq

/-- Modelled from the spec (§4.6), for comparison with `rcloneTrace`:
"Any other non-zero exit is mapped to a fixed taxonomy of exit-code
meanings and surfaced as a fatal error for that invocation (not
retried)" — i.e. on a non-transient failure the surfaced error is the
`RCLONE_EXIT_CODES` meaning of the exit status, not the offending log
entry. -/
def rcloneTraceSpec : List Attempt → List REvent × SpecROutcome
  | [] => ([], .scriptExhausted)
  | a :: rest =>
    if a.ok then ([.invoke], .success)
    else
      match classifyStderr a.stderr with
      | .fatalRaise _ => ([.invoke], .fatalMapped a.code (RCLONE_EXIT_CODES a.code))
      | .retrySleep =>
          let (tr, o) := rcloneTraceSpec rest
          (.invoke :: .sleep5 :: tr, o)
      | .retryNoSleep =>
          let (tr, o) := rcloneTraceSpec rest
          (.invoke :: tr, o)

/-! ## Decision gate and task pipeline (`BackupTask`, backup.py 256–309) -/

/-- `get_user_feedback(tree)` (backup.py 291–309), with the decision the
queue would deliver passed in explicitly: `none` is the skip sentinel
(`skip_backup` puts `None`), `some entries` the exclusion set
(`continue_backup`).  When no large entries exist the gate is never
consulted and the exclusion set is empty.  Returns the adjusted backup
size and the exclusion value (`none` mirrors Python's `exclude = None`
on skip).  The sorting of the large entries only affects presentation
order, not the result. -/
def getUserFeedback (threshold : Nat) (tree : Entry)
    (decision : Option (List Entry)) : Int × Option (List Entry) :=
  let size : Int := (transferSize tree : Nat)
  match largeEntries threshold tree with
  | [] => (size, some [])
  | _ :: _ =>
    match decision with
    | none => (0, none)
    | some excl => (size - (excl.map (fun e => (transferSize e : Int))).sum, some excl)

/-- The externally observable steps of `BackupTask.perform`. -/
inductive Step where
  | prepare
  | startBackup (size : Int)
  | sync
  | finishBackup
  | finalize
  | cleanup
  | idle
deriving DecidableEq

/-- `perform()` (backup.py 256–270) on the success path, abstracting the
subprocess work: after `prepare` and the scout (whose resulting tree is
an input here), the user feedback determines the backup size; only when
it is non-zero do `start_backup`, the sync transfer, `finish_backup`
and `finalize` run — the skip path falls through to the `finally`
block's `cleanup` and `idle` directly. -/
def perform (threshold : Nat) (tree : Entry)
    (decision : Option (List Entry)) : List Step :=
  let fb := getUserFeedback threshold tree decision
  [.prepare]
    ++ (if fb.1 ≠ 0 then [.startBackup fb.1, .sync, .finishBackup, .finalize] else [])
    ++ [.cleanup, .idle]

/-! ## Scheduling (`BackupConfig.backup`, backup.py 182–208) -/

/-- Inputs to one scheduling decision, with the external collaborators'
results made explicit: `interval` is the configured `timedelta` (or
`None`), `snapshotTimestamp` is the timestamp of the freshest local
snapshot (`none` models `VolumeNotMounted`), `lastLogTimestamp` the
timestamp parsed from the last sync log (`none` when this is the first
backup), and `taskCreationOk` is `false` when constructing the
`BackupTask` raises `TimeMachineBackupInProgress`. -/
structure SchedInput where
  interval : Option Int
  snapshotTimestamp : Option Int
  lastLogTimestamp : Option Int
  taskCreationOk : Bool
deriving DecidableEq

/-- Side effects of one scheduling decision. -/
inductive SchedEvent where
  | notifyVolumeNotMounted
  | notifyAlreadyBackedUp
  | performTask
deriving DecidableEq

/-- Python truthiness of `self.interval` (a `timedelta` or `None`):
`None` and a zero interval are falsy. -/
def intervalTruthy : Option Int → Bool
  | none => false
  | some d => d != 0

/-- `BackupConfig.backup(app, force)` (backup.py 182–208): returns
whether a backup was performed, plus its notifications.  Mirrors the
code branch for branch: bail out when no interval is configured and the
run is not forced; notify and bail out when the source volume is not
mounted; when a previous log exists, compare the snapshot age — zero
age skips (notifying only when forced), an age under the interval skips
unless forced; otherwise run the task (which does nothing when Time
Machine holds the snapshot).  In the age comparison the interval is
necessarily a real `timedelta` whenever it is read (the first guard
already returned otherwise), so the `getD` default is never taken. -/
def backupDecision (inp : SchedInput) (force : Bool) : Bool × List SchedEvent :=
  if !(intervalTruthy inp.interval || force) then (false, [])
  else
    match inp.snapshotTimestamp with
    | none => (false, [.notifyVolumeNotMounted])
    | some localTs =>
      let runTask : Bool × List SchedEvent :=
        if inp.taskCreationOk then (true, [.performTask]) else (false, [])
      match inp.lastLogTimestamp with
      | some logTs =>
        let lastAge := localTs - logTs
        if lastAge = 0 then (false, if force then [.notifyAlreadyBackedUp] else [])
        else if !force && lastAge < inp.interval.getD 0 then (false, [])
        else runTask
      | none => runTask

/-- Leaf test: is the node a `File`/`Link`? -/
def isLeaf : Entry → Bool
  | .file _ _ _ _ _ => true
  | .dir _ _ _ _ => false

/-- Structural-occurrence relation: `OccursIn x t` holds when `x` is `t`
itself or a node of the subtree below `t`.  Used to state ancestor /
descendant facts about yielded entries. -/
inductive OccursIn : Entry → Entry → Prop
  | refl (t : Entry) : OccursIn t t
  | child {x c : Entry} {n : String} {p : List String} {a : Option String}
      {md : List (String × String)} {es : List (String × Entry)} :
      (n, c) ∈ es → OccursIn x c → OccursIn x (.dir p a md es)

/-! ## Concrete trees used by the end-to-end example and the witnesses -/

/-- Leaf `a` of the spec's end-to-end example. -/
def fileA : Entry := .file ["a"] 2000000 (some "copy") [] false

/-- Leaf `b/c` of the spec's end-to-end example. -/
def fileBC : Entry := .file ["b","c"] 150000000 (some "copy") [] false

/-- Leaf `b/d` of the spec's end-to-end example. -/
def fileBD : Entry := .file ["b","d"] 1000000 (some "copy") [] false

/-- The example tree of §8: `a` (2,000,000, copy), `b/c` (150,000,000,
copy), `b/d` (1,000,000, copy). -/
def exampleTree : Entry :=
  .dir [] none [] [("a", fileA), ("b", .dir ["b"] none [] [("c", fileBC), ("d", fileBD)])]

/-- Does a tree operation succeed? -/
def exceptIsOk : Except PyError Entry → Bool
  | .ok _ => true
  | .error _ => false

/-- A transient-network failure: non-zero exit whose structured stderr
matches the `no such host` pattern. -/
def transientAttempt : Attempt :=
  ⟨false, 5, [.raw "progress", .json "Get: dial tcp: lookup remote: no such host"]⟩

/-- A successful invocation. -/
def okAttempt : Attempt := ⟨true, 0, []⟩

/-- A non-transient failure with exit status 3 whose structured stderr
message is not the taxonomy text for code 3. -/
def fatalAttempt : Attempt := ⟨false, 3, [.json "directory not found: remote:backup"]⟩

/-- The scout events of the C7 counterexample: a copy of `a`, a copy of
`x/y` (which materialises `x` as an action-less placeholder directory),
then a rename of `a` to `x`. -/
def c7events : List LogLine :=
  [.json ⟨"a", 7, "", some "copy"⟩,
   .json ⟨"x/y", 5, "", some "copy"⟩,
   .json ⟨"x", 0, "Renamed from \"a\"", none⟩]

/-- The tree after the first two events of `c7events`. -/
def c7before : Entry :=
  .dir [] none [] [("a", .file ["a"] 7 (some "copy") [] false),
    ("x", .dir ["x"] none [] [("y", .file ["x","y"] 5 (some "copy") [] false)])]

/-- The tree after all of `c7events`. -/
def c7after : Entry :=
  .dir [] none [] [("a", .file ["a"] 7 (some "copy") [("destination","x")] false),
    ("x", .dir ["x"] (some "move-dest") [] [("y", .file ["x","y"] 5 (some "copy") [] false)])]

/-- A one-file tree used by the C7 witness. -/
def c7wTree : Entry := .dir [] none [] [("a", .file ["a"] 7 (some "copy") [] false)]

/-- `c7wTree` after inserting the `move-dest` leaf at `b`. -/
def c7wMid : Entry :=
  .dir [] none [] [("a", .file ["a"] 7 (some "copy") [] false),
    ("b", .file ["b"] 0 (some "move-dest") [("source","a")] false)]

/-- `c7wMid` after annotating `a` with its destination. -/
def c7wEnd : Entry :=
  .dir [] none [] [("a", .file ["a"] 7 (some "copy") [("destination","b")] false),
    ("b", .file ["b"] 0 (some "move-dest") [("source","a")] false)]

/-! ## Lemmas and claim theorems -/

/-- Induction over the nested tree structure. -/
theorem Entry.inductionOn (P : Entry → Prop)
    (hf : ∀ p sz a md l, P (.file p sz a md l))
    (hd : ∀ p a md es, (∀ n e, (n, e) ∈ es → P e) → P (.dir p a md es)) :
    ∀ t, P t
  | .file p sz a md l => hf p sz a md l
  | .dir p a md es => hd p a md es (fun n e he =>
      Entry.inductionOn P hf hd e)
termination_by t => sizeOf t
decreasing_by
  have h1 := List.sizeOf_lt_of_mem he
  simp only [Prod.mk.sizeOf_spec] at h1
  simp only [Entry.dir.sizeOf_spec]
  omega

theorem largeEntries_file {thr : Nat} {p sz a md l} :
    largeEntries thr (.file p sz a md l) =
      if transferSize (.file p sz a md l) > thr then [Entry.file p sz a md l] else [] := rfl

theorem largeEntries_dir_of_nil {thr : Nat} {p a md es}
    (h : largeEntriesList thr es = []) :
    largeEntries thr (.dir p a md es) =
      if transferSize (.dir p a md es) > thr then [Entry.dir p a md es] else [] := by
  simp [largeEntries, h]

theorem largeEntries_dir_of_ne_nil {thr : Nat} {p a md es}
    (h : largeEntriesList thr es ≠ []) :
    largeEntries thr (.dir p a md es) = largeEntriesList thr es := by
  rcases hc : largeEntriesList thr es with _ | ⟨y, ys⟩
  · exact absurd hc h
  · simp [largeEntries, hc]

theorem largeEntriesList_eq_nil {thr : Nat} {es : List (String × Entry)} :
    largeEntriesList thr es = [] ↔ ∀ n e, (n, e) ∈ es → largeEntries thr e = [] := by
  induction es with
  | nil => simp [largeEntriesList]
  | cons pe rest ih =>
    obtain ⟨k, e⟩ := pe
    simp only [largeEntriesList, List.append_eq_nil, ih, List.mem_cons]
    constructor
    · rintro ⟨h1, h2⟩ n e' (h | h)
      · cases h; exact h1
      · exact h2 n e' h
    · intro h
      exact ⟨h k e (Or.inl rfl), fun n e' hm => h n e' (Or.inr hm)⟩

theorem mem_largeEntriesList {thr : Nat} {x : Entry} {es : List (String × Entry)} :
    x ∈ largeEntriesList thr es ↔ ∃ n e, (n, e) ∈ es ∧ x ∈ largeEntries thr e := by
  induction es with
  | nil => simp [largeEntriesList]
  | cons pe rest ih =>
    obtain ⟨k, e⟩ := pe
    simp only [largeEntriesList, List.mem_append, ih, List.mem_cons]
    constructor
    · rintro (h | ⟨n, e', hm, hx⟩)
      · exact ⟨k, e, Or.inl rfl, h⟩
      · exact ⟨n, e', Or.inr hm, hx⟩
    · rintro ⟨n, e', (h | h), hx⟩
      · rw [Prod.mk.injEq] at h; rw [← h.2]; exact Or.inl hx
      · exact Or.inr ⟨n, e', h, hx⟩

theorem mem_largeEntries_self {thr : Nat} :
    ∀ t : Entry, ∀ x ∈ largeEntries thr t, largeEntries thr x = [x] := by
  intro t
  induction t using Entry.inductionOn with
  | hf p sz a md l =>
    intro x hx
    rw [largeEntries_file] at hx
    split at hx
    · rcases List.mem_singleton.mp hx with rfl
      rw [largeEntries_file, if_pos (by assumption)]
    · simp at hx
  | hd p a md es ih =>
    intro x hx
    by_cases h : largeEntriesList thr es = []
    · rw [largeEntries_dir_of_nil h] at hx
      split at hx
      · rcases List.mem_singleton.mp hx with rfl
        rw [largeEntries_dir_of_nil h, if_pos (by assumption)]
      · simp at hx
    · rw [largeEntries_dir_of_ne_nil h] at hx
      rcases mem_largeEntriesList.mp hx with ⟨n, e, hm, hxe⟩
      exact ih n e hm x hxe

theorem mem_largeEntries_occursIn {thr : Nat} :
    ∀ t : Entry, ∀ x ∈ largeEntries thr t, OccursIn x t := by
  intro t
  induction t using Entry.inductionOn with
  | hf p sz a md l =>
    intro x hx
    rw [largeEntries_file] at hx
    split at hx
    · rcases List.mem_singleton.mp hx with rfl; exact OccursIn.refl _
    · simp at hx
  | hd p a md es ih =>
    intro x hx
    by_cases h : largeEntriesList thr es = []
    · rw [largeEntries_dir_of_nil h] at hx
      split at hx
      · rcases List.mem_singleton.mp hx with rfl; exact OccursIn.refl _
      · simp at hx
    · rw [largeEntries_dir_of_ne_nil h] at hx
      rcases mem_largeEntriesList.mp hx with ⟨n, e, hm, hxe⟩
      exact OccursIn.child hm (ih n e hm x hxe)

theorem OccursIn.sizeOf_le {x t : Entry} (h : OccursIn x t) :
    sizeOf x ≤ sizeOf t := by
  induction h with
  | refl => exact le_refl _
  | child hm _ ih =>
    have h1 := List.sizeOf_lt_of_mem hm
    simp only [Prod.mk.sizeOf_spec] at h1
    simp only [Entry.dir.sizeOf_spec]
    omega

theorem occursIn_largeEntries_ne_nil {thr : Nat} {x t : Entry}
    (h : OccursIn x t) (hx : largeEntries thr x ≠ []) :
    largeEntries thr t ≠ [] := by
  induction h with
  | refl => exact hx
  | @child c n p a md es hm _ ih =>
    have hlist : largeEntriesList thr es ≠ [] := by
      intro hnil
      exact ih (largeEntriesList_eq_nil.mp hnil _ _ hm)
    rw [largeEntries_dir_of_ne_nil hlist]
    exact hlist

theorem not_mem_largeEntriesList_self {thr : Nat} {p a md es} :
    Entry.dir p a md es ∉ largeEntriesList thr es := by
  intro hmem
  rcases mem_largeEntriesList.mp hmem with ⟨n, e, hm, hx⟩
  have hocc := mem_largeEntries_occursIn e _ hx
  have hle := hocc.sizeOf_le
  have h1 := List.sizeOf_lt_of_mem hm
  simp only [Prod.mk.sizeOf_spec] at h1
  simp only [Entry.dir.sizeOf_spec] at hle
  omega

theorem mem_largeEntries_of_leaf {thr : Nat} {x t : Entry}
    (hocc : OccursIn x t) (hleaf : isLeaf x = true) (hbig : transferSize x > thr) :
    x ∈ largeEntries thr t := by
  induction hocc with
  | refl =>
    cases x with
    | file p sz a md l => rw [largeEntries_file, if_pos hbig]; exact List.mem_singleton_self _
    | dir p a md es => simp [isLeaf] at hleaf
  | @child c n p a md es hm _ ih =>
    have hxl : x ∈ largeEntriesList thr es := mem_largeEntriesList.mpr ⟨n, c, hm, ih⟩
    rw [largeEntries_dir_of_ne_nil (List.ne_nil_of_mem hxl)]
    exact hxl

/-- C1: `largeEntries(threshold)` is a minimal non-overlapping cover.
(a) No yielded entry occurs strictly inside another yielded entry (so an
entry is never yielded together with an ancestor or descendant of
itself); (b) a directory whose recursively collected qualifying
descendants are non-empty propagates exactly that collection and never
yields itself; (c) a directory whose collection is empty is yielded
alone exactly when its own aggregate transfer size strictly exceeds the
threshold; (d) a leaf of the tree is yielded iff its transfer size
strictly exceeds the threshold. -/
theorem c1_largeEntries_minimal_cover (thr : Nat) (t : Entry) :
    (∀ x ∈ largeEntries thr t, ∀ y ∈ largeEntries thr t, OccursIn x y → x = y) ∧
    (∀ p a md es, largeEntriesList thr es ≠ [] →
        largeEntries thr (.dir p a md es) = largeEntriesList thr es ∧
        Entry.dir p a md es ∉ largeEntriesList thr es) ∧
    (∀ p a md es, largeEntriesList thr es = [] →
        largeEntries thr (.dir p a md es) =
          (if transferSize (.dir p a md es) > thr then [Entry.dir p a md es] else [])) ∧
    (∀ x, OccursIn x t → isLeaf x = true →
        (x ∈ largeEntries thr t ↔ transferSize x > thr)) := by
  refine ⟨?_, ?_, ?_, ?_⟩
  · intro x hx y hy hocc
    cases hocc with
    | refl => rfl
    | @child c n p a md es hm hoc =>
      exfalso
      have hself := mem_largeEntries_self t _ hy
      by_cases hnil : largeEntriesList thr es = []
      · have hxne : largeEntries thr x ≠ [] := by
          rw [mem_largeEntries_self t x hx]; simp
        have hcne := occursIn_largeEntries_ne_nil hoc hxne
        exact hcne (largeEntriesList_eq_nil.mp hnil n c hm)
      · rw [largeEntries_dir_of_ne_nil hnil] at hself
        have : Entry.dir p a md es ∈ largeEntriesList thr es := by
          rw [hself]; exact List.mem_singleton_self _
        exact not_mem_largeEntriesList_self this
  · intro p a md es hne
    exact ⟨largeEntries_dir_of_ne_nil hne, not_mem_largeEntriesList_self⟩
  · intro p a md es hnil
    exact largeEntries_dir_of_nil hnil
  · intro x hocc hleaf
    constructor
    · intro hx
      have hself := mem_largeEntries_self t x hx
      cases x with
      | file p sz a md l =>
        rw [largeEntries_file] at hself
        by_contra hnot
        rw [if_neg hnot] at hself
        exact List.cons_ne_nil _ _ hself.symm
      | dir p a md es => simp [isLeaf] at hleaf
    · exact mem_largeEntries_of_leaf hocc hleaf

theorem lookupName_updateName_self (es : List (String × Entry)) (n : String) (v : Entry) :
    lookupName (updateName es n v) n = some v := by
  induction es with
  | nil => simp [updateName, lookupName]
  | cons pe rest ih =>
    obtain ⟨k, e⟩ := pe
    by_cases h : k = n
    · simp [updateName, lookupName, h]
    · simp [updateName, lookupName, h, ih]

theorem lookupName_append_right (es : List (String × Entry)) (n : String) (v : Entry)
    (h : lookupName es n = none) : lookupName (es ++ [(n, v)]) n = some v := by
  induction es with
  | nil => simp [lookupName]
  | cons pe rest ih =>
    obtain ⟨k, e⟩ := pe
    by_cases hk : k = n
    · simp [lookupName, hk] at h
    · simp [lookupName, hk] at h ⊢
      exact ih h

theorem assocGet_assocSet_self (md : List (String × String)) (k v : String) :
    assocGet (assocSet md k v) k = some v := by
  induction md with
  | nil => simp [assocSet, assocGet]
  | cons pe rest ih =>
    obtain ⟨k', v'⟩ := pe
    by_cases h : k' = k
    · simp [assocSet, assocGet, h]
    · simp [assocSet, assocGet, h, ih]

theorem transferSize_entrySetMeta (e : Entry) (k v : String) :
    transferSize (entrySetMeta e k v) = transferSize e := by
  cases e <;> rfl

theorem transferSize_entrySetAction (e : Entry) (act : String)
    (hfalse : actionTruthy (entryAction e) = false) (hact : act ≠ "copy") :
    transferSize (entrySetAction e act) = transferSize e := by
  cases e with
  | file p sz a md l =>
    cases a with
    | none => simp [entrySetAction, transferSize, hact]
    | some s =>
      simp [actionTruthy, entryAction] at hfalse
      simp [entrySetAction, transferSize, hact, hfalse]
  | dir p a md es => rfl

theorem transferSizeList_updateName_eq (es : List (String × Entry)) (n : String)
    (e v : Entry) (hl : lookupName es n = some e)
    (hv : transferSize v = transferSize e) :
    transferSizeList (updateName es n v) = transferSizeList es := by
  induction es with
  | nil => simp [lookupName] at hl
  | cons pe rest ih =>
    obtain ⟨k, e'⟩ := pe
    by_cases hk : k = n
    · simp [lookupName, hk] at hl
      subst hl
      simp [updateName, hk, transferSizeList, hv]
    · simp [lookupName, hk] at hl
      simp [updateName, hk, transferSizeList, ih hl]

theorem transferSizeList_updateName_none (es : List (String × Entry)) (n : String)
    (v : Entry) (hl : lookupName es n = none) :
    transferSizeList (updateName es n v) = transferSizeList es + transferSize v := by
  induction es with
  | nil => simp [updateName, transferSizeList]
  | cons pe rest ih =>
    obtain ⟨k, e'⟩ := pe
    by_cases hk : k = n
    · simp [lookupName, hk] at hl
    · simp [lookupName, hk] at hl
      simp [updateName, hk, transferSizeList, ih hl]
      omega

theorem transferSizeList_append_single (es : List (String × Entry)) (n : String) (v : Entry) :
    transferSizeList (es ++ [(n, v)]) = transferSizeList es + transferSize v := by
  induction es with
  | nil => simp [transferSizeList]
  | cons pe rest ih =>
    obtain ⟨k, e'⟩ := pe
    simp [transferSizeList, ih]
    omega

/-- Inserting with any action other than `copy` leaves the total
transfer size untouched: the new leaf (size notwithstanding) and any
materialised placeholder directories contribute 0, and assigning the
action to an action-less placeholder cannot turn it into a `copy`. -/
theorem addFileRec_transferSize (act : String) (hact : act ≠ "copy") :
    ∀ (parts done : List String) (sz : Nat) (lk : Bool)
      (md : List (String × String)) (t t' : Entry),
      addFileRec parts done sz act lk md t = .ok t' →
      transferSize t' = transferSize t := by
  intro parts
  induction parts with
  | nil =>
    intro done sz lk md t t' h
    cases t <;> simp [addFileRec] at h
  | cons n rest ih =>
    intro done sz lk md t t' h
    cases t with
    | file p fsz fa fmd fl => simp [addFileRec] at h
    | dir p a m es =>
      cases rest with
      | nil =>
        rcases hl : lookupName es n with _ | e
        · simp only [addFileRec, hl, Except.ok.injEq] at h
          subst h
          show transferSizeList (es ++ [(n, _)]) = transferSizeList es
          rw [transferSizeList_append_single]
          simp [transferSize, hact]
        · rcases htr : actionTruthy (entryAction e) with _ | _
          · simp only [addFileRec, hl, htr, Bool.false_eq_true, if_false,
              Except.ok.injEq] at h
            subst h
            show transferSizeList (updateName es n (entrySetAction e act)) = transferSizeList es
            exact transferSizeList_updateName_eq es n e _ hl
              (transferSize_entrySetAction e act htr hact)
          · simp [addFileRec, hl, htr] at h
      | cons z zs =>
        rcases hl : lookupName es n with _ | c
        · rcases hr : addFileRec (z :: zs) (done ++ [n]) sz act lk md
              (.dir (done ++ [n]) none [] []) with e' | c'
          · simp [addFileRec, hl, hr] at h
          · simp only [addFileRec, hl, Option.getD, hr, Except.ok.injEq] at h
            subst h
            have hc' := ih (done ++ [n]) sz lk md _ _ hr
            show transferSizeList (updateName es n c') = transferSizeList es
            rw [transferSizeList_updateName_none es n c' hl, hc']
            rfl
        · rcases hr : addFileRec (z :: zs) (done ++ [n]) sz act lk md c with e' | c'
          · simp [addFileRec, hl, hr] at h
          · simp only [addFileRec, hl, Option.getD, hr, Except.ok.injEq] at h
            subst h
            have hc' := ih (done ++ [n]) sz lk md _ _ hr
            show transferSizeList (updateName es n c') = transferSizeList es
            exact transferSizeList_updateName_eq es n c c' hl hc'

/-- Annotating metadata anywhere in the tree does not change any
transfer size. -/
theorem setMetaAt_transferSize :
    ∀ (parts : List String) (k v : String) (t t' : Entry),
      setMetaAt parts k v t = .ok t' → transferSize t' = transferSize t := by
  intro parts
  induction parts with
  | nil =>
    intro k v t t' h
    cases t <;> simp [setMetaAt] at h
  | cons n rest ih =>
    intro k v t t' h
    cases t with
    | file p fsz fa fmd fl => simp [setMetaAt] at h
    | dir p a m es =>
      cases rest with
      | nil =>
        rcases hl : lookupName es n with _ | e
        · simp [setMetaAt, hl] at h
        · simp only [setMetaAt, hl, Except.ok.injEq] at h
          subst h
          show transferSizeList (updateName es n (entrySetMeta e k v)) = transferSizeList es
          exact transferSizeList_updateName_eq es n e _ hl (transferSize_entrySetMeta e k v)
      | cons z zs =>
        rcases hl : lookupName es n with _ | c
        · simp [setMetaAt, hl] at h
        · rcases hr : setMetaAt (z :: zs) k v c with e' | c'
          · simp [setMetaAt, hl, hr] at h
          · simp only [setMetaAt, hl, hr, Except.ok.injEq] at h
            subst h
            have hc' := ih k v _ _ hr
            show transferSizeList (updateName es n c') = transferSizeList es
            exact transferSizeList_updateName_eq es n c c' hl hc'

/-- A successful insertion at a path that did not resolve before creates
exactly the new leaf there: afterwards the path resolves to a fresh
`File` node carrying the inserted size, action, metadata and link flag,
its stored path being the full inserted path. -/
theorem addFileRec_resolve_new :
    ∀ (parts done : List String) (sz : Nat) (act : String) (lk : Bool)
      (md : List (String × String)) (t t' : Entry),
      addFileRec parts done sz act lk md t = .ok t' →
      resolve t parts = none →
      resolve t' parts = some (.file (done ++ parts) sz (some act) md lk) := by
  intro parts
  induction parts with
  | nil =>
    intro done sz act lk md t t' h hres
    cases t <;> simp [addFileRec] at h
  | cons n rest ih =>
    intro done sz act lk md t t' h hres
    cases t with
    | file p fsz fa fmd fl => simp [addFileRec] at h
    | dir p a m es =>
      cases rest with
      | nil =>
        rcases hl : lookupName es n with _ | e
        · simp only [addFileRec, hl, Except.ok.injEq] at h
          subst h
          show resolve _ [n] = _
          simp [resolve, lookupName_append_right es n _ hl]
        · simp [resolve, hl] at hres
      | cons z zs =>
        rcases hl : lookupName es n with _ | c
        · rcases hr : addFileRec (z :: zs) (done ++ [n]) sz act lk md
              (.dir (done ++ [n]) none [] []) with e' | c'
          · simp [addFileRec, hl, hr] at h
          · simp only [addFileRec, hl, Option.getD, hr, Except.ok.injEq] at h
            subst h
            have hplaceholder : resolve (Entry.dir (done ++ [n]) none [] []) (z :: zs) = none := by
              simp [resolve, lookupName]
            have hc' := ih (done ++ [n]) sz act lk md _ _ hr hplaceholder
            show resolve _ (n :: z :: zs) = _
            simp only [resolve, lookupName_updateName_self, hc']
            simp
        · rcases hr : addFileRec (z :: zs) (done ++ [n]) sz act lk md c with e' | c'
          · simp [addFileRec, hl, hr] at h
          · simp only [addFileRec, hl, Option.getD, hr, Except.ok.injEq] at h
            subst h
            have hcres : resolve c (z :: zs) = none := by
              simpa [resolve, hl] using hres
            have hc' := ih (done ++ [n]) sz act lk md _ _ hr hcres
            show resolve _ (n :: z :: zs) = _
            simp only [resolve, lookupName_updateName_self, hc']
            simp

/-- A successful metadata annotation finds an entry at the path and
replaces it by the same entry with the key/value added; nothing else on
that path changes what `get` returns there. -/
theorem setMetaAt_getRec :
    ∀ (parts : List String) (k v : String) (t t' : Entry),
      setMetaAt parts k v t = .ok t' →
      ∃ e, getRec parts t = .ok e ∧ getRec parts t' = .ok (entrySetMeta e k v) := by
  intro parts
  induction parts with
  | nil =>
    intro k v t t' h
    cases t <;> simp [setMetaAt] at h
  | cons n rest ih =>
    intro k v t t' h
    cases t with
    | file p fsz fa fmd fl => simp [setMetaAt] at h
    | dir p a m es =>
      cases rest with
      | nil =>
        rcases hl : lookupName es n with _ | e
        · simp [setMetaAt, hl] at h
        · simp only [setMetaAt, hl, Except.ok.injEq] at h
          subst h
          refine ⟨e, ?_, ?_⟩
          · simp [getRec, hl]
          · simp [getRec, lookupName_updateName_self]
      | cons z zs =>
        rcases hl : lookupName es n with _ | c
        · simp [setMetaAt, hl] at h
        · rcases hr : setMetaAt (z :: zs) k v c with e' | c'
          · simp [setMetaAt, hl, hr] at h
          · simp only [setMetaAt, hl, hr, Except.ok.injEq] at h
            subst h
            rcases ih k v _ _ hr with ⟨e, hg1, hg2⟩
            refine ⟨e, ?_, ?_⟩
            · simp [getRec, hl, hg1]
            · simp [getRec, lookupName_updateName_self, hg2]

/-- Case analysis of `_add_file` at the terminal component, relative to
the directory the leading components resolve to: an existing child with
a truthy action raises the duplicate-insertion `RuntimeError`; an
existing action-less child (placeholder) gets the action assigned in
place; an absent child becomes a fresh leaf. -/
theorem addFileRec_terminal (name : String) (sz : Nat) (act : String) (lk : Bool)
    (md : List (String × String)) :
    ∀ (pre done : List String) (t : Entry) (p : List String) (a : Option String)
      (m : List (String × String)) (es : List (String × Entry)),
      resolve t pre = some (.dir p a m es) →
      ((∀ e, lookupName es name = some e → actionTruthy (entryAction e) = true →
          addFileRec (pre ++ [name]) done sz act lk md t =
            .error (.runtimeDuplicate (done ++ pre ++ [name]))) ∧
       (∀ e, lookupName es name = some e → actionTruthy (entryAction e) = false →
          ∃ t', addFileRec (pre ++ [name]) done sz act lk md t = .ok t' ∧
            resolve t' (pre ++ [name]) = some (entrySetAction e act)) ∧
       (lookupName es name = none →
          ∃ t', addFileRec (pre ++ [name]) done sz act lk md t = .ok t' ∧
            resolve t' (pre ++ [name]) =
              some (.file (done ++ pre ++ [name]) sz (some act) md lk))) := by
  intro pre
  induction pre with
  | nil =>
    intro done t p a m es hres
    simp only [resolve, Option.some.injEq] at hres
    subst hres
    refine ⟨?_, ?_, ?_⟩
    · intro e hl htr
      simp [addFileRec, hl, htr]
    · intro e hl htr
      refine ⟨.dir p a m (updateName es name (entrySetAction e act)), ?_, ?_⟩
      · simp [addFileRec, hl, htr]
      · simp [resolve, lookupName_updateName_self]
    · intro hl
      refine ⟨.dir p a m (es ++ [(name, .file (done ++ [name]) sz (some act) md lk)]), ?_, ?_⟩
      · simp [addFileRec, hl]
      · simp [resolve, lookupName_append_right es name _ hl]
  | cons x pre' ih =>
    intro done t p a m es hres
    cases t with
    | file fp fsz fa fmd fl => simp [resolve] at hres
    | dir tp ta tm tes =>
      rcases hl : lookupName tes x with _ | c
      · simp [resolve, hl] at hres
      · simp only [resolve, hl] at hres
        obtain ⟨z, zs, hzz⟩ : ∃ z zs, pre' ++ [name] = z :: zs := by
          cases pre' <;> exact ⟨_, _, rfl⟩
        have hpath : (done ++ [x]) ++ pre' = done ++ x :: pre' := by simp
        have ihc := ih (done ++ [x]) c p a m es hres
        rw [hzz, hpath] at ihc
        refine ⟨?_, ?_, ?_⟩
        · intro e hle htr
          have h1 := ihc.1 e hle htr
          show addFileRec (x :: (pre' ++ [name])) done sz act lk md _ = _
          rw [hzz]
          simp only [addFileRec, hl, Option.getD, h1]
        · intro e hle htr
          obtain ⟨t', ht', hres'⟩ := ihc.2.1 e hle htr
          refine ⟨.dir tp ta tm (updateName tes x t'), ?_, ?_⟩
          · show addFileRec (x :: (pre' ++ [name])) done sz act lk md _ = _
            rw [hzz]
            simp only [addFileRec, hl, Option.getD, ht']
          · show resolve _ (x :: (pre' ++ [name])) = _
            rw [hzz]
            simp only [resolve, lookupName_updateName_self]
            exact hres'
        · intro hle
          obtain ⟨t', ht', hres'⟩ := ihc.2.2 hle
          refine ⟨.dir tp ta tm (updateName tes x t'), ?_, ?_⟩
          · show addFileRec (x :: (pre' ++ [name])) done sz act lk md _ = _
            rw [hzz]
            simp only [addFileRec, hl, Option.getD, ht']
          · show resolve _ (x :: (pre' ++ [name])) = _
            rw [hzz]
            simp only [resolve, lookupName_updateName_self]
            exact hres'

/-- Extending an insertion path through an existing leaf reaches
`File`'s missing `_add_file` and raises `AttributeError`. -/
theorem addFileRec_through_leaf :
    ∀ (pre rest done : List String) (sz : Nat) (act : String) (lk : Bool)
      (md : List (String × String)) (t : Entry)
      (fp : List String) (fsz : Nat) (fa : Option String)
      (fmd : List (String × String)) (fl : Bool),
      resolve t pre = some (.file fp fsz fa fmd fl) → rest ≠ [] →
      addFileRec (pre ++ rest) done sz act lk md t = .error .attributeError := by
  intro pre
  induction pre with
  | nil =>
    intro rest done sz act lk md t fp fsz fa fmd fl hres hrest
    simp only [resolve, Option.some.injEq] at hres
    subst hres
    simp only [List.nil_append]
    cases rest with
    | nil => exact absurd rfl hrest
    | cons z zs => rfl
  | cons x pre' ih =>
    intro rest done sz act lk md t fp fsz fa fmd fl hres hrest
    cases t with
    | file p0 s0 a0 m0 l0 => rfl
    | dir tp ta tm tes =>
      rcases hl : lookupName tes x with _ | c
      · simp [resolve, hl] at hres
      · simp only [resolve, hl] at hres
        have hrec := ih rest (done ++ [x]) sz act lk md c fp fsz fa fmd fl hres hrest
        obtain ⟨z, zs, hzz⟩ : ∃ z zs, pre' ++ rest = z :: zs := by
          cases pre' with
          | nil => cases rest with
            | nil => exact absurd rfl hrest
            | cons r rs => exact ⟨_, _, rfl⟩
          | cons q qs => exact ⟨_, _, rfl⟩
        show addFileRec (x :: (pre' ++ rest)) done sz act lk md _ = _
        rw [hzz]
        rw [hzz] at hrec
        simp only [addFileRec, hl, Option.getD, hrec]

/-- C2: in every tree the transfer size of a directory is the sum of its
children's transfer sizes (a directory carries no own byte count), and
the transfer size of a leaf (`File` or `Link`) is its size when its
action is `copy` and 0 for any other action. -/
theorem c2_transferSize_invariants :
    (∀ (p : List String) (a : Option String) (md : List (String × String))
        (es : List (String × Entry)),
        transferSize (.dir p a md es) = (es.map (fun pe => transferSize pe.2)).sum) ∧
    (∀ (p : List String) (sz : Nat) (a : Option String)
        (md : List (String × String)) (lk : Bool),
        transferSize (.file p sz a md lk) = if a = some "copy" then sz else 0) := by
  constructor
  · intro p a md es
    show transferSizeList es = _
    induction es with
    | nil => rfl
    | cons pe rest ih => simp [transferSizeList, ih]
  · intro p sz a md lk
    rfl

/-- C3: the spec's end-to-end example.  Building the tree through
`add_file` yields `exampleTree`; with threshold 100,000,000 the large
entries are exactly `b/c` (neither `b` nor `b/d`); the total transfer
size is 153,000,000; excluding `b/c` leaves a backup size of 3,000,000;
and `iter_files` with `b/c` excluded yields exactly `a` and `b/d`. -/
theorem c3_end_to_end_example :
    (do
      let t1 ← addFile root0 "a" 2000000 "copy" []
      let t2 ← addFile t1 "b/c" 150000000 "copy" []
      addFile t2 "b/d" 1000000 "copy" []) = Except.ok exampleTree ∧
    largeEntries 100000000 exampleTree = [fileBC] ∧
    transferSize exampleTree = 153000000 ∧
    getUserFeedback 100000000 exampleTree (some [fileBC]) = (3000000, some [fileBC]) ∧
    iterFiles [["b","c"]] exampleTree = [fileA, fileBD] :=
  ⟨rfl, rfl, rfl, rfl, rfl⟩

/-- C1 witness: part (d) of the cover theorem applied to the example
tree and the leaf `b/c`. -/
theorem c1_large_entries_witness :
    fileBC ∈ largeEntries 100000000 exampleTree ↔ transferSize fileBC > 100000000 :=
  (c1_largeEntries_minimal_cover 100000000 exampleTree).2.2.2 fileBC
    (OccursIn.child (List.mem_cons_of_mem _ (List.mem_cons_self _ _))
      (OccursIn.child (List.mem_cons_self _ _) (OccursIn.refl _)))
    rfl

/-- C4 counterexample: on the example tree with threshold 100,000,000
the gate is consulted (a large entry exists).  A skip response forces
the backup size to 0 and the run proceeds directly to cleanup and idle;
`finalize` is NOT among the executed steps, contradicting the claim
that a skipped run still reaches the finalizing step
(`perform` guards `finalize()` by `if backup_size != 0`). -/
theorem c4_skip_counterexample :
    largeEntries 100000000 exampleTree ≠ [] ∧
    getUserFeedback 100000000 exampleTree none = (0, none) ∧
    perform 100000000 exampleTree none = [.prepare, .cleanup, .idle] ∧
    Step.finalize ∉ perform 100000000 exampleTree none := by
  refine ⟨?_, rfl, rfl, ?_⟩
  · exact List.cons_ne_nil _ _
  · show Step.finalize ∉ [Step.prepare, Step.cleanup, Step.idle]
    decide

/-- C4 (amended): when the decision-maker answers a threshold-exceeded
request with the skip sentinel, the total backup size is forced to 0,
no transfer is performed, and the run skips `finalize` as well,
proceeding directly to cleanup and idle. -/
theorem c4_skip_amended (thr : Nat) (tree : Entry)
    (h : largeEntries thr tree ≠ []) :
    getUserFeedback thr tree none = (0, none) ∧
    perform thr tree none = [.prepare, .cleanup, .idle] := by
  rcases hc : largeEntries thr tree with _ | ⟨y, ys⟩
  · exact absurd hc h
  · constructor
    · simp [getUserFeedback, hc]
    · simp [perform, getUserFeedback, hc]

/-- C4 witness: the amended theorem applied to the example tree. -/
theorem c4_skip_amended_witness :
    getUserFeedback 100000000 exampleTree none = (0, none) ∧
    perform 100000000 exampleTree none = [.prepare, .cleanup, .idle] :=
  c4_skip_amended 100000000 exampleTree (List.cons_ne_nil _ _)

/-- C5 counterexample: on a non-transient failure the wrapper raises
`NotImplementedError(log_entry)` — the surfaced error carries the
offending log entry, not the `RCLONE_EXIT_CODES` meaning of the exit
status that the claim (and spec §4.6) prescribe; the spec-modelled
runner disagrees with the code on this input. -/
theorem c5_taxonomy_counterexample :
    rcloneTrace [fatalAttempt] =
      ([.invoke], .fatalNotImplemented "directory not found: remote:backup") ∧
    rcloneTraceSpec [fatalAttempt] =
      ([.invoke], .fatalMapped 3 (some "Directory not found")) ∧
    "directory not found: remote:backup" ≠ "Directory not found" :=
  ⟨rfl, rfl, by decide⟩

/-- C5 (amended): the retry behaviour is as claimed — `n` consecutive
transient failures followed by a success produce exactly `n + 1`
invocations, each failure followed by a 5-second backoff sleep, and the
caller observes only the final success.  A failure whose first
structured stderr line is non-transient is surfaced immediately as a
fatal `NotImplementedError` carrying that log entry (not the exit-code
taxonomy meaning), with no retry. -/
theorem c5_retry_amended :
    (∀ (n : Nat) (a b : Attempt), a.ok = false →
        classifyStderr a.stderr = .retrySleep → b.ok = true →
        rcloneTrace (List.replicate n a ++ [b]) =
          ((List.replicate n [REvent.invoke, REvent.sleep5]).flatten ++ [REvent.invoke],
            .success)) ∧
    (∀ (a : Attempt) (rest : List Attempt) (m : String), a.ok = false →
        classifyStderr a.stderr = .fatalRaise m →
        rcloneTrace (a :: rest) = ([.invoke], .fatalNotImplemented m)) := by
  constructor
  · intro n a b ha hcl hb
    induction n with
    | zero => simp [rcloneTrace, hb]
    | succ k ih =>
      rw [List.replicate_succ, List.cons_append]
      simp only [rcloneTrace, ha, Bool.false_eq_true, if_false, hcl, ih]
      simp [List.replicate_succ]
  · intro a rest m ha hm
    simp [rcloneTrace, ha, hm]

/-- C5 witness: two transient failures then success give three
invocations with a sleep after each failure; the non-transient failure
surfaces its log entry fatally. -/
theorem c5_retry_amended_witness :
    rcloneTrace (List.replicate 2 transientAttempt ++ [okAttempt]) =
      ((List.replicate 2 [REvent.invoke, REvent.sleep5]).flatten ++ [REvent.invoke],
        .success) ∧
    rcloneTrace [fatalAttempt] =
      ([.invoke], .fatalNotImplemented "directory not found: remote:backup") :=
  ⟨c5_retry_amended.1 2 transientAttempt okAttempt rfl rfl rfl,
   c5_retry_amended.2 fatalAttempt [] _ rfl rfl⟩

/-- C6: `insert` fails fast with the duplicate-insertion error exactly
when the terminal node already exists with an assigned (truthy) action;
a terminal node existing as an action-less placeholder instead gets the
action assigned in place; an absent terminal node becomes a fresh leaf
(a `Link` when the final component carries the `.rclonelink` suffix).
`pre` is the leading components of the inserted path and `es` the child
dictionary of the directory they resolve to. -/
theorem c6_insert_duplicate_semantics (t : Entry) (path : String)
    (pre : List String) (name : String) (sz : Nat) (act : String)
    (md : List (String × String)) (p : List String) (a : Option String)
    (m : List (String × String)) (es : List (String × Entry))
    (hsplit : pathParts path = pre ++ [name])
    (hres : resolve t pre = some (.dir p a m es)) :
    (∀ e, lookupName es name = some e → actionTruthy (entryAction e) = true →
        addFile t path sz act md = .error (.runtimeDuplicate (pre ++ [name]))) ∧
    (∀ e, lookupName es name = some e → actionTruthy (entryAction e) = false →
        ∃ t', addFile t path sz act md = .ok t' ∧
          resolve t' (pre ++ [name]) = some (entrySetAction e act)) ∧
    (lookupName es name = none →
        ∃ t', addFile t path sz act md = .ok t' ∧
          resolve t' (pre ++ [name]) =
            some (.file (pre ++ [name]) sz (some act) md
                  (endsWithStr ".rclonelink" name))) := by
  have hlast : ((pre ++ [name]).getLast?).getD "" = name := by
    simp [List.getLast?_concat]
  have haddfile : addFile t path sz act md =
      addFileRec (pre ++ [name]) [] sz act (endsWithStr ".rclonelink" name) md t := by
    show addFileRec (pathParts path) [] sz act
        (endsWithStr ".rclonelink" (((pathParts path).getLast?).getD "")) md t = _
    rw [hsplit, hlast]
  have h := addFileRec_terminal name sz act (endsWithStr ".rclonelink" name) md
      pre [] t p a m es hres
  simp only [List.nil_append] at h
  refine ⟨?_, ?_, ?_⟩
  · intro e hle htr
    rw [haddfile]
    exact h.1 e hle htr
  · intro e hle htr
    rw [haddfile]
    exact h.2.1 e hle htr
  · intro hle
    rw [haddfile]
    exact h.2.2 hle

/-- C6 witness: re-inserting `b/c` into the example tree (its action is
already assigned) raises the duplicate error; inserting a fresh path
into the empty root succeeds. -/
theorem c6_insert_duplicate_witness :
    addFile exampleTree "b/c" 5 "copy" [] = .error (.runtimeDuplicate ["b","c"]) ∧
    exceptIsOk (addFile root0 "a" 5 "copy" []) = true := by
  constructor
  · exact (c6_insert_duplicate_semantics exampleTree "b/c" ["b"] "c" 5 "copy" []
      ["b"] none [] [("c", fileBC), ("d", fileBD)] rfl rfl).1 fileBC rfl rfl
  · obtain ⟨t', ht, _⟩ := (c6_insert_duplicate_semantics root0 "a" [] "a" 5 "copy" []
      [] none [] [] rfl rfl).2.2 rfl
    rw [ht]
    rfl

/-- C10: inserting at a path one of whose proper leading parts already
maps to a leaf (`File` or `Link`) fails with the attribute-lookup error
(the leaf has no child-insertion method), not with the
duplicate-insertion error. -/
theorem c10_insert_under_leaf (t : Entry) (path : String)
    (pre rest : List String) (sz : Nat) (act : String)
    (md : List (String × String)) (fp : List String) (fsz : Nat)
    (fa : Option String) (fmd : List (String × String)) (fl : Bool)
    (hsplit : pathParts path = pre ++ rest) (hrest : rest ≠ [])
    (hres : resolve t pre = some (.file fp fsz fa fmd fl)) :
    addFile t path sz act md = .error .attributeError ∧
    ∀ q, addFile t path sz act md ≠ .error (.runtimeDuplicate q) := by
  have h1 : addFile t path sz act md = .error .attributeError := by
    show addFileRec (pathParts path) [] sz act
        (endsWithStr ".rclonelink" (((pathParts path).getLast?).getD "")) md t = _
    rw [hsplit]
    exact addFileRec_through_leaf pre rest [] sz act
      (endsWithStr ".rclonelink" (((pre ++ rest).getLast?).getD "")) md t
      fp fsz fa fmd fl hres hrest
  refine ⟨h1, fun q hq => ?_⟩
  rw [h1] at hq
  simp at hq

/-- C10 witness: inserting `a/x` into the example tree, where `a` is a
leaf, raises the attribute error. -/
theorem c10_insert_under_leaf_witness :
    addFile exampleTree "a/x" 5 "copy" [] = .error .attributeError :=
  (c10_insert_under_leaf exampleTree "a/x" ["a"] ["x"] 5 "copy" []
    ["a"] 2000000 (some "copy") [] false rfl (List.cons_ne_nil _ _) rfl).1

/-- `entryMeta` after `entrySetMeta` is the updated dictionary. -/
theorem entryMeta_entrySetMeta (e : Entry) (k v : String) :
    entryMeta (entrySetMeta e k v) = assocSet (entryMeta e) k v := by
  cases e <;> rfl

/-- C7 (amended): processing a rename event (`skipped` falsy, message
matching `Renamed from "src"`) on a tree where the new path is absent
and both the insertion and the old-path annotation succeed (the latter
is exactly the claim's premise that the tree holds an entry at the old
path): the parse continues on the updated tree; the new path now holds
a fresh size-0 `move-dest` leaf whose metadata carries the old path as
`source`; the entry at the old path becomes the same entry with
`destination` set to the new path in its metadata; and the total
transfer size is unchanged. -/
theorem c7_rename_move_dest (t : Entry) (m : LogMsg) (rest : List LogLine)
    (src : String) (t' t2 : Entry)
    (hskip : actionTruthy m.skipped = false)
    (hmsg : renamedFrom m.msg = some src)
    (hnew : resolve t (pathParts m.object) = none)
    (hadd : addFile t m.object 0 "move-dest" [("source", src)] = .ok t')
    (hset : setMetaAt (splitSlash src) "destination" m.object t' = .ok t2) :
    scoutFold t (.json m :: rest) = scoutFold t2 rest ∧
    resolve t' (pathParts m.object) =
      some (.file (pathParts m.object) 0 (some "move-dest") [("source", src)]
        (endsWithStr ".rclonelink" (((pathParts m.object).getLast?).getD ""))) ∧
    (∃ e, getRec (splitSlash src) t' = .ok e ∧
        getRec (splitSlash src) t2 = .ok (entrySetMeta e "destination" m.object) ∧
        assocGet (entryMeta (entrySetMeta e "destination" m.object)) "destination"
          = some m.object) ∧
    transferSize t2 = transferSize t := by
  refine ⟨?_, ?_, ?_, ?_⟩
  · simp [scoutFold, hskip, hmsg, hadd, hset]
  · have hadd' : addFileRec (pathParts m.object) [] 0 "move-dest"
        (endsWithStr ".rclonelink" (((pathParts m.object).getLast?).getD ""))
        [("source", src)] t = .ok t' := hadd
    have h := addFileRec_resolve_new (pathParts m.object) [] 0 "move-dest"
        (endsWithStr ".rclonelink" (((pathParts m.object).getLast?).getD ""))
        [("source", src)] t t' hadd' hnew
    simpa using h
  · obtain ⟨e, hg1, hg2⟩ := setMetaAt_getRec (splitSlash src) "destination" m.object
        t' t2 hset
    refine ⟨e, hg1, hg2, ?_⟩
    rw [entryMeta_entrySetMeta]
    exact assocGet_assocSet_self _ _ _
  · have h1 := setMetaAt_transferSize (splitSlash src) "destination" m.object t' t2 hset
    have h2 := addFileRec_transferSize "move-dest" (by decide)
        (pathParts m.object) [] 0
        (endsWithStr ".rclonelink" (((pathParts m.object).getLast?).getD ""))
        [("source", src)] t t' hadd
    rw [h1, h2]

/-- C7 counterexample: the tree before the rename holds an entry at the
old path `a` (the claim's precondition), yet because `x` already exists
as an action-less placeholder, the rename only assigns `move-dest` to
that directory — no new node is produced, and its metadata does NOT
carry the old path (`source` is absent), contrary to the claim. -/
theorem c7_rename_counterexample :
    scoutFold root0 (c7events.take 2) = .ok c7before ∧
    getRec (splitSlash "a") c7before = .ok (.file ["a"] 7 (some "copy") [] false) ∧
    scoutLogToTree c7events = .ok c7after ∧
    resolve c7after ["x"] = some (.dir ["x"] (some "move-dest") []
      [("y", .file ["x","y"] 5 (some "copy") [] false)]) ∧
    assocGet (entryMeta (.dir ["x"] (some "move-dest") []
      [("y", .file ["x","y"] 5 (some "copy") [] false)])) "source" = none :=
  ⟨rfl, rfl, rfl, rfl, rfl⟩

/-- C7 witness: the amended theorem applied to a concrete rename of `a`
to a fresh path `b`. -/
theorem c7_rename_move_dest_witness :
    scoutFold c7wTree [.json ⟨"b", 0, "Renamed from \"a\"", none⟩] = scoutFold c7wEnd [] ∧
    resolve c7wMid ["b"] = some (.file ["b"] 0 (some "move-dest") [("source","a")] false) ∧
    transferSize c7wEnd = transferSize c7wTree := by
  have h := c7_rename_move_dest c7wTree ⟨"b", 0, "Renamed from \"a\"", none⟩ []
      "a" c7wMid c7wEnd rfl rfl rfl rfl rfl
  exact ⟨h.1, h.2.1, h.2.2.2⟩

/-- C8 counterexample: a rename record whose old path has no entry in
the tree is NOT handled as a recoverable malformed event — the
`tree.get(source)` lookup raises `KeyError`, which aborts the parse. -/
theorem c8_missing_source_counterexample :
    scoutLogToTree [.json ⟨"b", 0, "Renamed from \"a\"", none⟩] =
      .error (.keyError "a") := rfl

/-- C8 (amended): a line that is not parseable as a structured record
is passed through and the tree is left unchanged (the parse continues);
but a rename record whose old path is missing from the tree aborts the
parse with the error the annotation raises (a `KeyError`), rather than
being recovered from. -/
theorem c8_malformed_lines_amended :
    (∀ (t : Entry) (s : String) (rest : List LogLine),
        scoutFold t (.raw s :: rest) = scoutFold t rest) ∧
    (∀ (t : Entry) (m : LogMsg) (rest : List LogLine) (src : String)
        (t' : Entry) (er : PyError),
        actionTruthy m.skipped = false →
        renamedFrom m.msg = some src →
        addFile t m.object 0 "move-dest" [("source", src)] = .ok t' →
        setMetaAt (splitSlash src) "destination" m.object t' = .error er →
        scoutFold t (.json m :: rest) = .error er) := by
  constructor
  · intro t s rest
    rfl
  · intro t m rest src t' er hskip hmsg hadd hset
    simp [scoutFold, hskip, hmsg, hadd, hset]

/-- C8 witness: a non-JSON line is skipped with the tree unchanged, and
the concrete missing-source rename aborts with `KeyError`. -/
theorem c8_malformed_lines_witness :
    scoutFold root0 [.raw "2023/07/04 NOTICE: banner"] = scoutFold root0 [] ∧
    scoutFold root0 [.json ⟨"b", 0, "Renamed from \"a\"", none⟩] =
      .error (.keyError "a") :=
  ⟨c8_malformed_lines_amended.1 root0 "2023/07/04 NOTICE: banner" [],
   c8_malformed_lines_amended.2 root0 ⟨"b", 0, "Renamed from \"a\"", none⟩ [] "a"
     (.dir [] none [] [("b", .file ["b"] 0 (some "move-dest") [("source","a")] false)])
     (.keyError "a") rfl rfl rfl rfl⟩

/-- C9: the scheduling policy.  (1) With no interval configured and no
force flag the backup is skipped with no work; (2) a zero last-synced
age is skipped even when forced, firing the already-backed-up
notification instead of a transfer; (3) a zero age without force is
likewise skipped silently; (4) an age below the configured interval
without force is skipped; (5) a forced run with non-zero age performs
the task; (6) an unforced run whose age reaches the configured interval
performs the task. -/
theorem c9_scheduling_policy (inp : SchedInput) :
    (inp.interval = none → backupDecision inp false = (false, [])) ∧
    (∀ lts, inp.snapshotTimestamp = some lts → inp.lastLogTimestamp = some lts →
        backupDecision inp true = (false, [.notifyAlreadyBackedUp])) ∧
    (∀ d lts, inp.interval = some d → d ≠ 0 → inp.snapshotTimestamp = some lts →
        inp.lastLogTimestamp = some lts → backupDecision inp false = (false, [])) ∧
    (∀ d lts logts, inp.interval = some d → d ≠ 0 →
        inp.snapshotTimestamp = some lts → inp.lastLogTimestamp = some logts →
        lts - logts < d → backupDecision inp false = (false, [])) ∧
    (∀ lts logts, inp.snapshotTimestamp = some lts →
        inp.lastLogTimestamp = some logts → lts - logts ≠ 0 →
        inp.taskCreationOk = true →
        backupDecision inp true = (true, [.performTask])) ∧
    (∀ d lts logts, inp.interval = some d → d ≠ 0 →
        inp.snapshotTimestamp = some lts → inp.lastLogTimestamp = some logts →
        lts - logts ≠ 0 → d ≤ lts - logts → inp.taskCreationOk = true →
        backupDecision inp false = (true, [.performTask])) := by
  refine ⟨?_, ?_, ?_, ?_, ?_, ?_⟩
  · intro h
    simp [backupDecision, h, intervalTruthy]
  · intro lts hsnap hlog
    simp [backupDecision, hsnap, hlog, intervalTruthy]
  · intro d lts hint hd hsnap hlog
    simp [backupDecision, hint, hd, hsnap, hlog, intervalTruthy]
  · intro d lts logts hint hd hsnap hlog hage
    by_cases hz : lts - logts = 0
    · simp [backupDecision, hint, hd, hsnap, hlog, intervalTruthy, hz]
    · simp [backupDecision, hint, hd, hsnap, hlog, intervalTruthy, hz, hage]
  · intro lts logts hsnap hlog hage htask
    simp [backupDecision, hsnap, hlog, intervalTruthy, hage, htask]
  · intro d lts logts hint hd hsnap hlog hage hge htask
    simp [backupDecision, hint, hd, hsnap, hlog, intervalTruthy, hage, htask,
      not_lt.mpr hge]

/-- C9 witness: the six policy clauses at concrete inputs. -/
theorem c9_scheduling_policy_witness :
    backupDecision ⟨none, some 10, some 3, true⟩ false = (false, []) ∧
    backupDecision ⟨some 4, some 10, some 10, true⟩ true =
      (false, [.notifyAlreadyBackedUp]) ∧
    backupDecision ⟨some 4, some 10, some 10, true⟩ false = (false, []) ∧
    backupDecision ⟨some 4, some 10, some 8, true⟩ false = (false, []) ∧
    backupDecision ⟨some 4, some 10, some 5, true⟩ true = (true, [.performTask]) ∧
    backupDecision ⟨some 4, some 10, some 5, true⟩ false = (true, [.performTask]) :=
  ⟨(c9_scheduling_policy _).1 rfl,
   (c9_scheduling_policy _).2.1 10 rfl rfl,
   (c9_scheduling_policy _).2.2.1 4 10 rfl (by decide) rfl rfl,
   (c9_scheduling_policy _).2.2.2.1 4 10 8 rfl (by decide) rfl rfl (by decide),
   (c9_scheduling_policy _).2.2.2.2.1 10 5 rfl rfl (by decide) rfl,
   (c9_scheduling_policy _).2.2.2.2.2 4 10 5 rfl (by decide) rfl rfl (by decide)
     (by decide) rfl⟩

end TB
